import Mathlib

/-!
Shallow embedding of the block-lifecycle scheduler and single-threaded event
multiplexer of `i3status-rust` (source files `src/scheduler.rs`,
`src/main.rs`, `src/blocks.rs`).

Instants and durations are modelled as `Nat`: `std::time::Instant` and
`Duration` are non-negative, and the source only subtracts instants under a
`update_time <= now` guard, so truncated `Nat` subtraction agrees with the
source on every path actually taken.
-/

namespace I3

/-- `scheduler.rs`: `pub struct Task { pub id: usize, pub update_time: Instant }`. -/
structure Task where
  id : Nat
  update_time : Nat
deriving Repr, DecidableEq

/-- `scheduler.rs`: `pub struct UpdateScheduler { pub schedule: Vec<Task> }`. -/
structure UpdateScheduler where
  schedule : List Task
deriving Repr, DecidableEq

/-- `UpdateScheduler::new(blocks_cnt)`: seeds one task per id in
`0..blocks_cnt`, each due at the `Instant::now()` sampled inside `new`
(passed here as the parameter `now`). -/
def UpdateScheduler.new (blocks_cnt : Nat) (now : Nat) : UpdateScheduler :=
  { schedule := (List.range blocks_cnt).map fun id => { id := id, update_time := now } }

/-- The `for task in &self.schedule` loop of
`UpdateScheduler::time_to_next_update`, with the early
`return Some(Duration::ZERO)` on a due task and the running minimum
accumulator `dur`. -/
def ttnuLoop (now : Nat) : List Task → Option Nat → Option Nat
  | [], dur => dur
  | task :: rest, dur =>
    if task.update_time ≤ now then some 0
    else
      match dur with
      | some d => ttnuLoop now rest (some (min d (task.update_time - now)))
      | none => ttnuLoop now rest (some (task.update_time - now))

/-- `UpdateScheduler::time_to_next_update(&self)`, parametrised by the single
`Instant::now()` sampled at its start. -/
def UpdateScheduler.time_to_next_update (s : UpdateScheduler) (now : Nat) : Option Nat :=
  ttnuLoop now s.schedule none

/-- `UpdateScheduler::push(id, when)`:
`self.schedule.push(Task { id, update_time: when })` — an unconditional
`Vec::push` at the end of the list. -/
def UpdateScheduler.push (s : UpdateScheduler) (id : Nat) (when : Nat) : UpdateScheduler :=
  { schedule := s.schedule ++ [{ id := id, update_time := when }] }

/-- `UpdateScheduler::pop(id)`: `self.schedule.retain(|task| task.id != id)`. -/
def UpdateScheduler.pop (s : UpdateScheduler) (id : Nat) : UpdateScheduler :=
  { schedule := s.schedule.filter fun task => decide (task.id ≠ id) }

/-- Number of scheduled tasks carrying a given block id. -/
def UpdateScheduler.taskCount (s : UpdateScheduler) (id : Nat) : Nat :=
  s.schedule.countP fun task => decide (task.id = id)

lemma ttnuLoop_due {now : Nat} {l : List Task} (h : ∃ t ∈ l, t.update_time ≤ now) :
    ∀ acc, ttnuLoop now l acc = some 0 := by
  induction l with
  | nil => rcases h with ⟨t, ht, _⟩; cases ht
  | cons t rest ih =>
    intro acc
    by_cases hd : t.update_time ≤ now
    · simp [ttnuLoop, hd]
    · rcases h with ⟨u, hu, hud⟩
      rcases List.mem_cons.mp hu with rfl | hmem
      · exact absurd hud hd
      · cases acc with
        | some d => simp only [ttnuLoop, if_neg hd]; exact ih ⟨u, hmem, hud⟩ _
        | none => simp only [ttnuLoop, if_neg hd]; exact ih ⟨u, hmem, hud⟩ _

lemma ttnuLoop_future_acc {now : Nat} {l : List Task}
    (h : ∀ t ∈ l, now < t.update_time) :
    ∀ a, ttnuLoop now l (some a) =
      some (l.foldl (fun b t => min b (t.update_time - now)) a) := by
  induction l with
  | nil => intro a; rfl
  | cons t rest ih =>
    intro a
    have hd : ¬ t.update_time ≤ now := Nat.not_le.mpr (h t (List.mem_cons_self t rest))
    simp only [ttnuLoop, if_neg hd, List.foldl_cons]
    exact ih (fun u hu => h u (List.mem_cons_of_mem _ hu)) _

lemma ttnuLoop_future_none {now : Nat} {t : Task} {rest : List Task}
    (h : ∀ u ∈ t :: rest, now < u.update_time) :
    ttnuLoop now (t :: rest) none =
      some (rest.foldl (fun b u => min b (u.update_time - now)) (t.update_time - now)) := by
  have hd : ¬ t.update_time ≤ now := Nat.not_le.mpr (h t (List.mem_cons_self t rest))
  simp only [ttnuLoop, if_neg hd]
  exact ttnuLoop_future_acc (fun u hu => h u (List.mem_cons_of_mem _ hu)) _

lemma foldl_min_le_init (l : List Task) (f : Task → Nat) (a : Nat) :
    l.foldl (fun b t => min b (f t)) a ≤ a := by
  induction l generalizing a with
  | nil => exact Nat.le_refl a
  | cons t rest ih =>
    exact Nat.le_trans (ih (min a (f t))) (Nat.min_le_left _ _)

lemma foldl_min_le_mem (l : List Task) (f : Task → Nat) (a : Nat) :
    ∀ t ∈ l, l.foldl (fun b u => min b (f u)) a ≤ f t := by
  induction l generalizing a with
  | nil => intro t ht; cases ht
  | cons u rest ih =>
    intro t ht
    rcases List.mem_cons.mp ht with rfl | hmem
    · exact Nat.le_trans (foldl_min_le_init rest f _) (Nat.min_le_right _ _)
    · exact ih _ t hmem

lemma foldl_min_eq_init_or_mem (l : List Task) (f : Task → Nat) (a : Nat) :
    l.foldl (fun b u => min b (f u)) a = a ∨
      ∃ t ∈ l, l.foldl (fun b u => min b (f u)) a = f t := by
  induction l generalizing a with
  | nil => exact Or.inl rfl
  | cons u rest ih =>
    rcases ih (min a (f u)) with heq | ⟨t, ht, heq⟩
    · simp only [List.foldl_cons]
      rcases Nat.le_total a (f u) with hle | hle
      · rw [heq, Nat.min_eq_left hle]; exact Or.inl rfl
      · rw [heq, Nat.min_eq_right hle]
        exact Or.inr ⟨u, List.mem_cons_self u rest, rfl⟩
    · exact Or.inr ⟨t, List.mem_cons_of_mem _ ht, by simpa using heq⟩

/-- `C4`: `time_to_next_update` (the spec's `time_to_next_wake`) is never
negative (durations are `Nat`, mirroring unsigned `Duration`); it is `none`
("none pending") iff the task list is empty; it is `some 0` iff some task's
due instant is not in the future relative to the single `now` sampled in the
call; and when every task is strictly in the future it returns the minimum of
`due - now` over all tasks. -/
theorem C4_time_to_next_wake (s : UpdateScheduler) (now : Nat) :
    (∀ d, s.time_to_next_update now = some d → 0 ≤ (d : Int)) ∧
    (s.time_to_next_update now = none ↔ s.schedule = []) ∧
    (s.time_to_next_update now = some 0 ↔ ∃ t ∈ s.schedule, t.update_time ≤ now) ∧
    ((∀ t ∈ s.schedule, now < t.update_time) → s.schedule ≠ [] →
      ∃ d, s.time_to_next_update now = some d ∧
        (∃ t ∈ s.schedule, d = t.update_time - now) ∧
        ∀ t ∈ s.schedule, d ≤ t.update_time - now) := by
  refine ⟨fun d _ => Int.natCast_nonneg d, ?_, ?_, ?_⟩
  · constructor
    · intro h
      cases hs : s.schedule with
      | nil => rfl
      | cons t rest =>
        exfalso
        unfold UpdateScheduler.time_to_next_update at h
        rw [hs] at h
        by_cases hdue : ∃ u ∈ t :: rest, u.update_time ≤ now
        · rw [ttnuLoop_due hdue none] at h; cases h
        · push_neg at hdue
          rw [ttnuLoop_future_none (fun u hu => hdue u hu)] at h
          cases h
    · intro h
      unfold UpdateScheduler.time_to_next_update
      rw [h]; rfl
  · constructor
    · intro h
      by_contra hnone
      push_neg at hnone
      cases hs : s.schedule with
      | nil =>
        unfold UpdateScheduler.time_to_next_update at h
        rw [hs] at h; cases h
      | cons t rest =>
        unfold UpdateScheduler.time_to_next_update at h
        rw [hs] at h
        have hfut : ∀ u ∈ t :: rest, now < u.update_time := by
          intro u hu
          have := hnone u (hs ▸ hu)
          omega
        rw [ttnuLoop_future_none hfut] at h
        have h0 : rest.foldl (fun b u => min b (u.update_time - now)) (t.update_time - now) = 0 :=
          Option.some.inj h
        rcases foldl_min_eq_init_or_mem rest (fun u => u.update_time - now) (t.update_time - now)
          with heq | ⟨u, hu, heq⟩
        · have h1 := hfut t (List.mem_cons_self t rest)
          rw [h0] at heq
          omega
        · have h1 := hfut u (List.mem_cons_of_mem _ hu)
          rw [h0] at heq
          omega
    · intro h
      unfold UpdateScheduler.time_to_next_update
      exact ttnuLoop_due h none
  · intro hfut hne
    cases hs : s.schedule with
    | nil => exact absurd hs hne
    | cons t rest =>
      have hfut' : ∀ u ∈ t :: rest, now < u.update_time := fun u hu => hfut u (hs ▸ hu)
      refine ⟨rest.foldl (fun b u => min b (u.update_time - now)) (t.update_time - now), ?_, ?_, ?_⟩
      · unfold UpdateScheduler.time_to_next_update
        rw [hs]
        exact ttnuLoop_future_none hfut'
      · rcases foldl_min_eq_init_or_mem rest (fun u => u.update_time - now) (t.update_time - now)
          with heq | ⟨u, hu, heq⟩
        · exact ⟨t, List.mem_cons_self t rest, heq⟩
        · exact ⟨u, List.mem_cons_of_mem _ hu, heq⟩
      · intro u hu
        rcases List.mem_cons.mp hu with rfl | hmem
        · exact foldl_min_le_init _ _ _
        · exact foldl_min_le_mem rest _ _ u hmem

/-- Witness for `C4` at a concrete scheduler: two future tasks at `10` and `7`
with `now = 5` give wake time `2`, and a scheduler with a due task gives `0`. -/
theorem C4_time_to_next_wake_witness :
    (⟨[⟨0, 10⟩, ⟨1, 7⟩]⟩ : UpdateScheduler).time_to_next_update 5 = some 2 ∧
    (⟨[⟨0, 10⟩, ⟨1, 3⟩]⟩ : UpdateScheduler).time_to_next_update 5 = some 0 := by
  constructor
  · obtain ⟨d, hd, ⟨t, htmem, hdt⟩, hmin⟩ :=
      (C4_time_to_next_wake (⟨[⟨0, 10⟩, ⟨1, 7⟩]⟩ : UpdateScheduler) 5).2.2.2
        (by decide) (by decide)
    have h7 : d ≤ 2 := hmin ⟨1, 7⟩ (by decide)
    have hge : 2 ≤ d := by
      cases htmem with
      | head => have h5 : d = 5 := hdt; omega
      | tail _ h2 =>
        cases h2 with
        | head => have h2eq : d = 2 := hdt; omega
        | tail _ h3 => cases h3
    have hd2 : d = 2 := Nat.le_antisymm h7 hge
    rw [hd2] at hd
    exact hd
  · exact (C4_time_to_next_wake (⟨[⟨0, 10⟩, ⟨1, 3⟩]⟩ : UpdateScheduler) 5).2.2.1.mpr
      ⟨⟨1, 3⟩, by decide, by decide⟩

/-- `C3` counterexample: `UpdateScheduler::push` is an unconditional
`Vec::push` — it appends and never replaces. Pushing id `0` twice leaves two
tasks for id `0`: the claimed insert-or-replace behaviour, and the claimed
at-most-one-task-per-id consequence for arbitrary push/pop sequences, are
both false. -/
theorem C3_counterexample :
    (((⟨[]⟩ : UpdateScheduler).push 0 5).push 0 7).schedule = [⟨0, 5⟩, ⟨0, 7⟩] ∧
    ¬ (((⟨[]⟩ : UpdateScheduler).push 0 5).push 0 7).taskCount 0 ≤ 1 := by
  decide

/-- `C3` (amended): `push(id, due)` appends unconditionally; the
at-most-one-task-per-id invariant is maintained only because the dispatcher
always calls `pop(id)` before `push(id, due)` — if every id has at most one
task, then `pop(id)` followed by `push(id, due)` again leaves every id with
at most one task. -/
theorem C3_pop_then_push (s : UpdateScheduler) (id due : Nat)
    (h : ∀ j, s.taskCount j ≤ 1) :
    ∀ j, ((s.pop id).push id due).taskCount j ≤ 1 := by
  intro j
  unfold UpdateScheduler.taskCount UpdateScheduler.push UpdateScheduler.pop
  simp only [List.countP_append]
  by_cases hj : j = id
  · subst hj
    have hzero : (s.schedule.filter fun task => decide (task.id ≠ j)).countP
        (fun task => decide (task.id = j)) = 0 := by
      rw [List.countP_eq_zero]
      intro t ht
      have := List.of_mem_filter ht
      simp only [decide_eq_true_eq] at this ⊢
      omega
    rw [hzero]
    simp
  · have hone : ([({ id := id, update_time := due } : Task)].countP
        (fun task => decide (task.id = j))) = 0 := by
      simp [hj, Ne.symm hj]
    rw [hone]
    have hle : (s.schedule.filter fun task => decide (task.id ≠ id)).countP
        (fun task => decide (task.id = j)) ≤ s.schedule.countP (fun task => decide (task.id = j)) :=
      (List.filter_sublist _).countP_le _
    have := h j
    unfold UpdateScheduler.taskCount at this
    omega

/-- Witness for `C3_pop_then_push` at a concrete scheduler. -/
theorem C3_pop_then_push_witness :
    (((⟨[⟨0, 5⟩, ⟨1, 8⟩]⟩ : UpdateScheduler).pop 0).push 0 9).taskCount 0 ≤ 1 :=
  C3_pop_then_push (⟨[⟨0, 5⟩, ⟨1, 8⟩]⟩ : UpdateScheduler) 0 9
    (fun j => by
      by_cases h0 : j = 0
      · subst h0; decide
      · by_cases h1 : j = 1
        · subst h1; decide
        · have hz : (⟨[⟨0, 5⟩, ⟨1, 8⟩]⟩ : UpdateScheduler).taskCount j = 0 := by
            unfold UpdateScheduler.taskCount
            rw [List.countP_eq_zero]
            intro t ht
            simp only [List.mem_cons, List.not_mem_nil, or_false] at ht
            rcases ht with rfl | rfl <;> simp only [decide_eq_true_eq] <;> omega
          omega) 0

/-!
## Dispatcher model (`src/main.rs`, `run` and its helpers)

Rendered widget data is abstracted as `Nat` (the dispatcher never inspects
it); a block instance is its dispatcher-visible interface: `interval()` and
`view()`.  `update()` and `click()` run inside awaited futures, so their
outcomes (the returned `Result` values) arrive as event payloads, exactly as
the `(id, block, result)` tuples of `update_block` do.

`Result`/`?` are embedded as `Except String`.  `errors.rs` is not under
`src/`; `in_block` is modelled from the spec: it annotates a per-block
failure with the block's context and otherwise preserves the value, which is
forced by its polymorphic uses `Result<T> -> Result<T>` at both call sites in
`run`.  Only its error-preservation matters here, so it is the identity on
`Except`.
-/

/-- A block instance as the dispatcher sees it (`Box<dyn Block>` restricted
to the methods `run` calls: `interval()` and `view()`; `update`/`click`
results arrive in events). `view` is the widget data `view().iter().map(get_data)` yields. -/
structure BlockInstance where
  interval : Option Nat
  view : List Nat
deriving Repr, DecidableEq

/-- `blocks.rs`: `pub struct BlockHandlers { pub signal: Option<i32>, pub on_click: Option<String> }`. -/
structure BlockHandlers where
  signal : Option Int
  on_click : Option String
deriving Repr, DecidableEq

/-- `main.rs`: `struct BlockState { inner: Option<Box<dyn Block>>, handlers: BlockHandlers }`.
`inner = some` is the spec's Owned state, `inner = none` is InFlight. -/
structure BlockState where
  inner : Option BlockInstance
  handlers : BlockHandlers
deriving Repr, DecidableEq

/-- `protocol/i3bar_event.rs` mouse buttons (the dispatcher only compares
against `MouseButton::Left`). -/
inductive MouseButton where
  | left
  | middle
  | right
  | wheelUp
  | wheelDown
deriving Repr, DecidableEq

/-- A click event `{ id, button }` as consumed by `run`. -/
structure I3BarEvent where
  id : Nat
  button : MouseButton
deriving Repr, DecidableEq

/-- `signals.rs`: `pub enum Signal { Usr1, Usr2, Other(i32) }`. -/
inductive Signal where
  | usr1
  | usr2
  | other (n : Int)
deriving Repr, DecidableEq

/-- The dispatcher state owned by `run`'s loop: the slot vector `blocks`,
`block_rendered`, the scheduler, the ids owned by the two `FuturesUnordered`
sets (`pending_new_blocks` by construction id, `pending_updating_blocks` by
the id passed to `update_block`), the current wait `ttnu`, and three
observation logs: snapshots flushed by `protocol::print_blocks`, commands
launched by `spawn_child_async`, and ids whose own `click` handler ran. -/
structure DispState where
  blocks : List (Option BlockState)
  block_rendered : List (List Nat)
  scheduler : UpdateScheduler
  pendingNew : List Nat
  pending : List Nat
  ttnu : Nat
  printed : List (List (List Nat))
  spawned : List String
  clicked : List Nat
deriving Repr, DecidableEq

/-- One resolution of the `tokio::select!`: which arm fired, with the data
the awaited future or stream item carried. -/
inductive Event where
  | constructed (id : Nat) (res : Except String (Option (BlockInstance × BlockHandlers)))
  | updated (id : Nat) (block : BlockInstance) (result : Except String Unit)
  | request (id : Nat)
  | click (ev : I3BarEvent) (clickRes : Except String Bool)
  | timer
  | signal (sig : Signal)

/-- Outcome of one loop iteration: continue with a new state, return `Err`
from `run` (the `?` operator), hit a panic (out-of-bounds index or
`unwrap()` on `None`), or re-exec the process (`restart()`). -/
inductive StepResult where
  | ok (s : DispState)
  | err (e : String)
  | panicked
  | restart
deriving Repr, DecidableEq

/-- Branch `Some((id, block)) = pending_new_blocks.next()`: on a
construction error `?` propagates; on `Ok(None)` (an `if_command` skip) the
slot stays empty; on success the slot is installed with `inner: None`, a
first update is dispatched for the same id, and a snapshot is printed.
`blocks_names[id]` is indexed in every case. -/
def constructedStep (s : DispState) (id : Nat)
    (res : Except String (Option (BlockInstance × BlockHandlers))) : StepResult :=
  if id < s.blocks.length then
    match res with
    | .error e => .err e
    | .ok none => .ok { s with pendingNew := s.pendingNew.erase id }
    | .ok (some (block, handlers)) =>
      let rendered := s.block_rendered.set id block.view
      .ok { s with
        blocks := s.blocks.set id (some { inner := none, handlers := handlers }),
        block_rendered := rendered,
        pending := s.pending ++ [id],
        pendingNew := s.pendingNew.erase id,
        printed := s.printed ++ [rendered] }
  else .panicked

/-- Branch `Some((id, block, result)) = pending_updating_blocks.next()`:
`result.in_block(..)?` first (an `Err` unwinds `run`); then `view()` is
re-rendered, `pop(id)` then a conditional `push(id, now + interval)`, the
instance is reinstalled via `blocks[id].as_mut().unwrap()`, and a snapshot
is printed. -/
def updatedStep (s : DispState) (id : Nat) (block : BlockInstance)
    (result : Except String Unit) (now : Nat) : StepResult :=
  if id < s.blocks.length then
    match result with
    | .error e => .err e
    | .ok () =>
      match s.blocks[id]? with
      | some (some st) =>
        let rendered := s.block_rendered.set id block.view
        let sched :=
          match block.interval with
          | some dur => (s.scheduler.pop id).push id (now + dur)
          | none => s.scheduler.pop id
        .ok { s with
          blocks := s.blocks.set id (some { st with inner := some block }),
          block_rendered := rendered,
          scheduler := sched,
          pending := s.pending.erase id,
          printed := s.printed ++ [rendered] }
      | _ => .panicked
  else .panicked

/-- Branch `Some(id) = rx_update_requests.recv()`: `blocks[id]` is indexed
with no bounds check; an empty slot or an in-flight slot drops the request;
an owned slot is taken and an update is dispatched. -/
def requestStep (s : DispState) (id : Nat) : StepResult :=
  match s.blocks[id]? with
  | none => .panicked
  | some none => .ok s
  | some (some st) =>
    match st.inner with
    | none => .ok s
    | some _ =>
      .ok { s with
        blocks := s.blocks.set id (some { st with inner := none }),
        pending := s.pending ++ [id] }

/-- The `_ => { .. }` arm of the click branch's `match`: if the slot is
owned, take the instance, run its own `click` handler inline, and dispatch
an update when it returns `Ok(true)` (the instance is dropped on
`Ok(false)`; `Err` unwinds `run` via `?`). -/
def clickInvoke (s : DispState) (ev : I3BarEvent) (clickRes : Except String Bool)
    (st : BlockState) : StepResult :=
  match st.inner with
  | none => .ok s
  | some _ =>
    let s1 := { s with
      blocks := s.blocks.set ev.id (some { st with inner := none }),
      clicked := s.clicked ++ [ev.id] }
    match clickRes with
    | .error e => .err e
    | .ok true => .ok { s1 with pending := s1.pending ++ [ev.id] }
    | .ok false => .ok s1

/-- Branch `Some(event) = events_stream.next()`: `blocks[event.id]` is
indexed with no bounds check; a registered `on_click` command together with
a left button spawns the command (the Rust `Some(on_click) if button == Left`
guard, written here as a nested test) and nothing else happens; otherwise
`clickInvoke` runs. -/
def clickStep (s : DispState) (ev : I3BarEvent) (clickRes : Except String Bool) : StepResult :=
  match s.blocks[ev.id]? with
  | none => .panicked
  | some none => .ok s
  | some (some st) =>
    match st.handlers.on_click with
    | some cmd =>
      if ev.button = .left then .ok { s with spawned := s.spawned ++ [cmd] }
      else clickInvoke s ev clickRes st
    | none => clickInvoke s ev clickRes st

/-- The `scheduler.schedule.retain(..)` scan of the timer branch: due tasks
are removed and, when slot `task.id` exists and is owned, the instance is
taken and an update for `task.id` is dispatched. Returns the retained
tasks, the mutated slots, the ids dispatched (in scan order), and whether
`blocks[task.id]` was indexed out of bounds. -/
def timerScan (now : Nat) : List Task → List (Option BlockState) →
    List Task × List (Option BlockState) × List Nat × Bool
  | [], blocks => ([], blocks, [], false)
  | task :: rest, blocks =>
    if task.update_time ≤ now then
      match blocks[task.id]? with
      | none => ([], blocks, [], true)
      | some none => timerScan now rest blocks
      | some (some st) =>
        match st.inner with
        | some _ =>
          let out := timerScan now rest (blocks.set task.id (some { st with inner := none }))
          (out.1, out.2.1, task.id :: out.2.2.1, out.2.2.2)
        | none => timerScan now rest blocks
    else
      let out := timerScan now rest blocks
      (task :: out.1, out.2.1, out.2.2.1, out.2.2.2)

/-- Branch `_ = tokio::time::sleep(ttnu)`. -/
def timerStep (s : DispState) (now : Nat) : StepResult :=
  let out := timerScan now s.scheduler.schedule s.blocks
  if out.2.2.2 then .panicked
  else .ok { s with scheduler := ⟨out.1⟩, blocks := out.2.1, pending := s.pending ++ out.2.2.1 }

/-- The `Signal::Usr1` loop
`blocks.iter_mut().filter_map(|b| b.as_mut()).enumerate()`: `filter_map`
runs **before** `enumerate`, so the id paired with each surviving slot is its
position among the non-empty slots, not its position in `blocks`. The
accumulator `k` is that running position. Returns the mutated slots and the
ids dispatched. -/
def usr1Scan : List (Option BlockState) → Nat → List (Option BlockState) × List Nat
  | [], _ => ([], [])
  | none :: rest, k =>
    let out := usr1Scan rest k
    (none :: out.1, out.2)
  | some st :: rest, k =>
    match st.inner with
    | some _ =>
      let out := usr1Scan rest (k + 1)
      ((some { st with inner := none }) :: out.1, k :: out.2)
    | none =>
      let out := usr1Scan rest (k + 1)
      (some st :: out.1, out.2)

/-- The `Signal::Other(sig)` loop: same `filter_map`-then-`enumerate`
iteration, dispatching only slots whose `handlers.signal == Some(sig)`. -/
def otherScan (sig : Int) : List (Option BlockState) → Nat →
    List (Option BlockState) × List Nat
  | [], _ => ([], [])
  | none :: rest, k =>
    let out := otherScan sig rest k
    (none :: out.1, out.2)
  | some st :: rest, k =>
    if st.handlers.signal = some sig then
      match st.inner with
      | some _ =>
        let out := otherScan sig rest (k + 1)
        ((some { st with inner := none }) :: out.1, k :: out.2)
      | none =>
        let out := otherScan sig rest (k + 1)
        (some st :: out.1, out.2)
    else
      let out := otherScan sig rest (k + 1)
      (some st :: out.1, out.2)

/-- Branch `Some(sig) = signals_stream.next()`. -/
def signalStep (s : DispState) (sig : Signal) : StepResult :=
  match sig with
  | .usr1 =>
    let out := usr1Scan s.blocks 0
    .ok { s with blocks := out.1, pending := s.pending ++ out.2 }
  | .usr2 => .restart
  | .other n =>
    let out := otherScan n s.blocks 0
    .ok { s with blocks := out.1, pending := s.pending ++ out.2 }

/-- The selected branch of one loop iteration, before the trailing `ttnu`
recomputation. -/
def branchStep (s : DispState) (now : Nat) : Event → StepResult
  | .constructed id res => constructedStep s id res
  | .updated id block result => updatedStep s id block result now
  | .request id => requestStep s id
  | .click ev clickRes => clickStep s ev clickRes
  | .timer => timerStep s now
  | .signal sig => signalStep s sig

/-- The trailing `if let Some(time) = scheduler.time_to_next_update() { ttnu = time; }`:
`ttnu` is overwritten only when the scheduler reports a pending task. -/
def finishIter (now : Nat) (s : DispState) : DispState :=
  match s.scheduler.time_to_next_update now with
  | some t => { s with ttnu := t }
  | none => s

/-- One full loop iteration of `run` at instant `now`. -/
def step (s : DispState) (now : Nat) (e : Event) : StepResult :=
  match branchStep s now e with
  | .ok s1 => .ok (finishIter now s1)
  | r => r

/-- The state of `run` when the loop is first entered: `n` configured
blocks, all slots empty and awaiting construction, one seeded scheduler task
per id, and `ttnu = Duration::from_secs(100)` (time units are abstract; the
constant is irrelevant to every claim). -/
def initState (n : Nat) (now0 : Nat) : DispState :=
  { blocks := List.replicate n none,
    block_rendered := List.replicate n [],
    scheduler := UpdateScheduler.new n now0,
    pendingNew := List.range n,
    pending := [],
    ttnu := 100,
    printed := [],
    spawned := [],
    clicked := [] }

/-- An event is only offered to the loop if its `FuturesUnordered` source
actually holds a future with that id; channel, click, timer and signal
sources are always live. -/
def enabledB (s : DispState) : Event → Bool
  | .constructed id _ => decide (id ∈ s.pendingNew)
  | .updated id _ _ => decide (id ∈ s.pending)
  | .request _ => true
  | .click _ _ => true
  | .timer => true
  | .signal _ => true

/-- Event filter selecting every event. -/
def allEvents : Event → Bool := fun _ => true

/-- Event filter excluding the signal branch. -/
def nonSignal : Event → Bool
  | .signal _ => false
  | _ => true

/-- States reachable from the post-construction-setup state through loop
iterations whose events pass the filter `allow`. -/
inductive ReachableVia (allow : Event → Bool) (n : Nat) : DispState → Prop where
  | init (now0 : Nat) : ReachableVia allow n (initState n now0)
  | next (s s1 : DispState) (now : Nat) (e : Event) :
      ReachableVia allow n s → allow e = true → enabledB s e = true →
      step s now e = .ok s1 → ReachableVia allow n s1

/-- Reachability under all six event sources. -/
def Reachable (n : Nat) (s : DispState) : Prop := ReachableVia allEvents n s

/-- Reachability under every event source except OS signals. -/
def ReachableNS (n : Nat) (s : DispState) : Prop := ReachableVia nonSignal n s

lemma finishIter_fields (now : Nat) (s : DispState) :
    (finishIter now s).blocks = s.blocks ∧
    (finishIter now s).block_rendered = s.block_rendered ∧
    (finishIter now s).scheduler = s.scheduler ∧
    (finishIter now s).pendingNew = s.pendingNew ∧
    (finishIter now s).pending = s.pending ∧
    (finishIter now s).printed = s.printed ∧
    (finishIter now s).spawned = s.spawned ∧
    (finishIter now s).clicked = s.clicked := by
  unfold finishIter
  split <;> exact ⟨rfl, rfl, rfl, rfl, rfl, rfl, rfl, rfl⟩

/-- `C10`: the async-request branch and the click branch index the slot
vector directly by the externally supplied id (`blocks[id]` /
`blocks[event.id]`) with no bounds check: the iteration panics exactly when
the id is not smaller than the number of configured blocks, and is a
non-panicking step (ok or error) exactly when it is. -/
theorem C10_unchecked_indexing (s : DispState) (now id : Nat) (btn : MouseButton)
    (res : Except String Bool) :
    (step s now (.request id) = .panicked ↔ s.blocks.length ≤ id) ∧
    (step s now (.click ⟨id, btn⟩ res) = .panicked ↔ s.blocks.length ≤ id) := by
  constructor
  · cases hg : s.blocks[id]? with
    | none =>
      have hlen := List.getElem?_eq_none_iff.mp hg
      simp [step, branchStep, requestStep, hg, hlen]
    | some o =>
      have hlt : id < s.blocks.length := by
        rcases List.getElem?_eq_some.mp hg with ⟨hl, _⟩
        exact hl
      cases o with
      | none => simp [step, branchStep, requestStep, hg]; omega
      | some st =>
        cases hi : st.inner with
        | none => simp [step, branchStep, requestStep, hg, hi]; omega
        | some b => simp [step, branchStep, requestStep, hg, hi]; omega
  · cases hg : s.blocks[id]? with
    | none =>
      have hlen := List.getElem?_eq_none_iff.mp hg
      simp [step, branchStep, clickStep, hg, hlen]
    | some o =>
      have hlt : id < s.blocks.length := by
        rcases List.getElem?_eq_some.mp hg with ⟨hl, _⟩
        exact hl
      have hnp : ¬ s.blocks.length ≤ id := Nat.not_le.mpr hlt
      cases o with
      | none => simp [step, branchStep, clickStep, hg, hnp]
      | some st =>
        have hinv : ∀ r, clickInvoke s ⟨id, btn⟩ r st ≠ .panicked := by
          intro r
          unfold clickInvoke
          cases hi : st.inner
          · simp
          · rcases r with e1 | bb
            · simp
            · cases bb <;> simp
        cases hoc : st.handlers.on_click with
        | some cmd =>
          by_cases hbtn : btn = MouseButton.left
          · simp [step, branchStep, clickStep, hg, hoc, hbtn, hnp]
          · cases hci : clickInvoke s ⟨id, btn⟩ res st with
            | ok s2 => simp [step, branchStep, clickStep, hg, hoc, hbtn, hci, hnp]
            | err e1 => simp [step, branchStep, clickStep, hg, hoc, hbtn, hci, hnp]
            | panicked => exact absurd hci (hinv res)
            | restart => simp [step, branchStep, clickStep, hg, hoc, hbtn, hci, hnp]
        | none =>
          cases hci : clickInvoke s ⟨id, btn⟩ res st with
          | ok s2 => simp [step, branchStep, clickStep, hg, hoc, hci, hnp]
          | err e1 => simp [step, branchStep, clickStep, hg, hoc, hci, hnp]
          | panicked => exact absurd hci (hinv res)
          | restart => simp [step, branchStep, clickStep, hg, hoc, hci, hnp]

/-- `C8`: a left click whose slot has a registered click-override command
only launches that command: the block's own `click` handler is not invoked,
the slot vector (hence ownership) is untouched, no update is dispatched and
no task is scheduled. -/
theorem C8_click_override (s : DispState) (now : Nat) (ev : I3BarEvent)
    (clickRes : Except String Bool) (st : BlockState) (cmd : String)
    (hslot : s.blocks[ev.id]? = some (some st))
    (hcmd : st.handlers.on_click = some cmd)
    (hbtn : ev.button = MouseButton.left) :
    step s now (.click ev clickRes) =
      .ok (finishIter now { s with spawned := s.spawned ++ [cmd] }) ∧
    (finishIter now { s with spawned := s.spawned ++ [cmd] }).blocks = s.blocks ∧
    (finishIter now { s with spawned := s.spawned ++ [cmd] }).scheduler = s.scheduler ∧
    (finishIter now { s with spawned := s.spawned ++ [cmd] }).pending = s.pending ∧
    (finishIter now { s with spawned := s.spawned ++ [cmd] }).clicked = s.clicked ∧
    (finishIter now { s with spawned := s.spawned ++ [cmd] }).spawned = s.spawned ++ [cmd] := by
  obtain ⟨hb, _, hs, _, hp, _, hsp, hc⟩ :=
    finishIter_fields now { s with spawned := s.spawned ++ [cmd] }
  refine ⟨?_, hb, hs, hp, hc, hsp⟩
  simp [step, branchStep, clickStep, hslot, hcmd, hbtn]

/-- Witness for `C8`: one block with override command `"xdg-open"`, left
click on it. -/
theorem C8_click_override_witness :
    step (⟨[some ⟨some ⟨none, [3]⟩, ⟨none, some "xdg-open"⟩⟩], [[3]], ⟨[]⟩,
        [], [], 9, [], [], []⟩ : DispState) 5
      (.click ⟨0, .left⟩ (.ok true)) =
    .ok (⟨[some ⟨some ⟨none, [3]⟩, ⟨none, some "xdg-open"⟩⟩], [[3]], ⟨[]⟩,
        [], [], 9, [], ["xdg-open"], []⟩ : DispState) := by
  have h := (C8_click_override
    (⟨[some ⟨some ⟨none, [3]⟩, ⟨none, some "xdg-open"⟩⟩], [[3]], ⟨[]⟩,
        [], [], 9, [], [], []⟩ : DispState) 5 ⟨0, .left⟩ (.ok true)
    ⟨some ⟨none, [3]⟩, ⟨none, some "xdg-open"⟩⟩ "xdg-open"
    (by decide) (by decide) (by decide)).1
  rw [h]
  rfl

/-- `C2` counterexample: an update completion that carries an `Err` does not
reinstall the instance and does not keep the loop running — `?` propagates
the error out of `run` (the step result is `err`, not `ok`). -/
theorem C2_counterexample :
    step (⟨[some ⟨none, ⟨none, none⟩⟩], [[]], ⟨[]⟩, [], [0], 7, [], [], []⟩ : DispState) 4
      (.updated 0 ⟨none, [5]⟩ (.error "update failed")) = .err "update failed" := by
  decide

/-- `C2` (amended): per-block update/click failures are **not** isolated —
the completion branch runs `result.in_block(..)?`, so any error completion
for an in-range id unwinds the dispatcher loop with that error (`run`
returns it; `main` then renders the error and blocks awaiting SIGUSR2),
and the block's instance is never reinstalled into its slot. -/
theorem C2_error_unwinds (s : DispState) (id : Nat) (block : BlockInstance)
    (e : String) (now : Nat) (h : id < s.blocks.length) :
    step s now (.updated id block (.error e)) = .err e := by
  simp [step, branchStep, updatedStep, h]

/-- Witness for `C2_error_unwinds`. -/
theorem C2_error_unwinds_witness :
    step (⟨[some ⟨some ⟨none, []⟩, ⟨none, none⟩⟩], [[]], ⟨[]⟩, [], [], 3, [], [], []⟩ : DispState)
      8 (.updated 0 ⟨none, []⟩ (.error "click failed")) = .err "click failed" :=
  C2_error_unwinds
    (⟨[some ⟨some ⟨none, []⟩, ⟨none, none⟩⟩], [[]], ⟨[]⟩, [], [], 3, [], [], []⟩ : DispState)
    0 ⟨none, []⟩ "click failed" 8 (by decide)

/-- `C5` counterexample: the claim quantifies over every completion, but an
error completion pops nothing, schedules nothing and reinstalls nothing —
the loop unwinds instead (see `C2`), so the stale task for the id survives
in no successor state at all. -/
theorem C5_counterexample :
    step (⟨[some ⟨none, ⟨none, none⟩⟩], [[]], ⟨[⟨0, 2⟩]⟩, [], [0], 9, [], [], []⟩ : DispState) 6
      (.updated 0 ⟨some 10, []⟩ (.error "io error")) = .err "io error" := by
  decide

/-- `C5` (amended): when an update (or click-triggered update) completion
for block `id` arrives **successfully**, the dispatcher removes every task
for `id`, then schedules exactly one task at `now + d` iff the block reports
interval `d` (and none when it reports no interval), leaves every other id's
tasks untouched, reinstalls the instance as Owned, and publishes a render.
So a 10s-interval block completing at t=3.2s wakes next at 13.2s: the
interval resets on completion. -/
theorem C5_success_completion (s : DispState) (id : Nat) (st : BlockState)
    (block : BlockInstance) (now : Nat)
    (hslot : s.blocks[id]? = some (some st)) :
    ∃ s1, step s now (.updated id block (.ok ())) = .ok s1 ∧
      (∀ d, block.interval = some d →
        (s1.scheduler.schedule.filter fun t => decide (t.id = id)) = [⟨id, now + d⟩]) ∧
      (block.interval = none →
        (s1.scheduler.schedule.filter fun t => decide (t.id = id)) = []) ∧
      (∀ j, j ≠ id → s1.scheduler.taskCount j = s.scheduler.taskCount j) ∧
      s1.blocks[id]? = some (some { st with inner := some block }) ∧
      s1.block_rendered = s.block_rendered.set id block.view ∧
      s1.printed = s.printed ++ [s.block_rendered.set id block.view] := by
  have hlt : id < s.blocks.length := by
    rcases List.getElem?_eq_some.mp hslot with ⟨hl, _⟩
    exact hl
  set sched : UpdateScheduler :=
    match block.interval with
    | some dur => (s.scheduler.pop id).push id (now + dur)
    | none => s.scheduler.pop id with hsched
  set s2 : DispState := { s with
    blocks := s.blocks.set id (some { st with inner := some block }),
    block_rendered := s.block_rendered.set id block.view,
    scheduler := sched,
    pending := s.pending.erase id,
    printed := s.printed ++ [s.block_rendered.set id block.view] } with hs2
  have hstep : step s now (.updated id block (.ok ())) = .ok (finishIter now s2) := by
    simp only [step, branchStep, updatedStep, if_pos hlt, hslot, hs2, hsched]
  have hpopped : ((s.scheduler.pop id).schedule.filter fun t => decide (t.id = id)) = [] := by
    unfold UpdateScheduler.pop
    rw [List.filter_eq_nil_iff]
    intro t ht
    have := List.of_mem_filter ht
    simp only [decide_eq_true_eq] at this ⊢
    omega
  obtain ⟨hb, hr, hs, _, _, hpr, _, _⟩ := finishIter_fields now s2
  refine ⟨finishIter now s2, hstep, ?_, ?_, ?_, ?_, ?_, ?_⟩
  · intro d hd
    rw [hs, hs2]
    simp only [hsched, hd]
    unfold UpdateScheduler.push
    rw [List.filter_append, hpopped]
    simp
  · intro hd
    rw [hs, hs2]
    simp only [hsched, hd]
    exact hpopped
  · intro j hj
    rw [hs, hs2]
    simp only [hsched]
    have hpop : (s.scheduler.pop id).taskCount j = s.scheduler.taskCount j := by
      unfold UpdateScheduler.taskCount UpdateScheduler.pop
      rw [List.countP_filter]
      congr 1
      funext t
      by_cases h : t.id = j
      · subst h
        simp [hj, Ne.symm hj]
      · simp [h]
    cases hd : block.interval with
    | none => simpa using hpop
    | some dur =>
      simp only []
      unfold UpdateScheduler.taskCount UpdateScheduler.push
      rw [List.countP_append]
      have : ([({ id := id, update_time := now + dur } : Task)].countP
          fun t => decide (t.id = j)) = 0 := by
        simp [Ne.symm hj]
      rw [this]
      unfold UpdateScheduler.taskCount at hpop
      unfold UpdateScheduler.pop at hpop ⊢
      omega
  · rw [hb, hs2]
    simp only []
    rw [List.getElem?_set_self', hslot]
    rfl
  · rw [hr]
  · rw [hpr]

/-- Concrete pre-state for the `C5` scenario: one block, in flight, with a
stale scheduled task at `77`. -/
def C5pre : DispState :=
  ⟨[some ⟨none, ⟨none, none⟩⟩], [[]], ⟨[⟨0, 77⟩]⟩, [], [0], 9, [], [], []⟩

/-- The state produced by the `C5` scenario's successful completion step. -/
def C5post : DispState :=
  match step C5pre 3200 (.updated 0 ⟨some 10000, [7]⟩ (.ok ())) with
  | .ok s1 => s1
  | _ => initState 0 0

/-- Witness for `C5`: interval `10000`, completion at `3200` — the block's
single scheduled task afterwards is at `13200`. -/
theorem C5_success_completion_witness :
    (C5post.scheduler.schedule.filter fun t => decide (t.id = 0)) = [⟨0, 13200⟩] := by
  obtain ⟨s1, h1, hsome, _, _, _, _, _⟩ :=
    C5_success_completion C5pre 0 ⟨none, ⟨none, none⟩⟩ ⟨some 10000, [7]⟩ 3200 (by decide)
  have hpost : C5post = s1 := by
    unfold C5post
    rw [h1]
  rw [hpost]
  exact hsome 10000 rfl

/-- `C9` counterexample: with an empty task list and stale `ttnu = 42`, an
iteration leaves `ttnu` at `42` — the loop reuses the wait computed from an
earlier, now-removed task list instead of waiting as "none pending". -/
theorem C9_counterexample :
    step (⟨[some ⟨some ⟨none, []⟩, ⟨none, none⟩⟩], [[]], ⟨[]⟩, [], [], 42, [], [], []⟩ : DispState)
      5 (.request 0) =
    .ok (⟨[some ⟨none, ⟨none, none⟩⟩], [[]], ⟨[]⟩, [], [0], 42, [], [], []⟩ : DispState) := by
  decide

lemma branchStep_ttnu {s s2 : DispState} {now : Nat} {e : Event}
    (h : branchStep s now e = .ok s2) : s2.ttnu = s.ttnu := by
  cases e <;>
    simp only [branchStep, constructedStep, updatedStep, requestStep, clickStep,
      clickInvoke, timerStep, signalStep] at h
  all_goals try split at h
  all_goals try split at h
  all_goals try split at h
  all_goals try split at h
  all_goals try split at h
  all_goals first
    | (cases h; rfl)
    | cases h

/-- `C9` (amended): the wait duration is recomputed from the scheduler after
each iteration **only when some task is pending**: if `time_to_next_update`
is `some t` the stored wait becomes `t`, but if the task list is empty
(`none`) the previous iteration's wait duration is reused unchanged (the
timer later fires spuriously and scans an empty list). -/
theorem C9_ttnu_recompute (s : DispState) (now : Nat) (e : Event) (s1 : DispState)
    (h : step s now e = .ok s1) :
    (∀ t, s1.scheduler.time_to_next_update now = some t → s1.ttnu = t) ∧
    (s1.scheduler.time_to_next_update now = none → s1.ttnu = s.ttnu) := by
  unfold step at h
  cases hb : branchStep s now e with
  | ok s2 =>
    rw [hb] at h
    have hs1 : finishIter now s2 = s1 := by
      cases h
      rfl
    subst hs1
    cases hm : s2.scheduler.time_to_next_update now with
    | some t0 =>
      constructor
      · intro t ht
        rw [(finishIter_fields now s2).2.2.1, hm] at ht
        cases ht
        simp [finishIter, hm]
      · intro hnone
        rw [(finishIter_fields now s2).2.2.1, hm] at hnone
        cases hnone
    | none =>
      constructor
      · intro t ht
        rw [(finishIter_fields now s2).2.2.1, hm] at ht
        cases ht
      · intro _
        have hft : (finishIter now s2).ttnu = s2.ttnu := by
          simp [finishIter, hm]
        rw [hft]
        exact branchStep_ttnu hb
  | err e1 => rw [hb] at h; cases h
  | panicked => rw [hb] at h; cases h
  | restart => rw [hb] at h; cases h

/-- States of the `C6` trace: two configured blocks; block 0's construction
resolves to `Ok(None)` (its `if_command` failed, a "skip"), so its slot stays
empty forever; block 1 is built and completes its first update. -/
def C6mid1 : DispState :=
  ⟨[none, none], [[], []], ⟨[⟨0, 0⟩, ⟨1, 0⟩]⟩, [1], [], 0, [], [], []⟩

def C6mid2 : DispState :=
  ⟨[none, none], [[], []], ⟨[]⟩, [1], [], 0, [], [], []⟩

def C6mid3 : DispState :=
  ⟨[none, some ⟨none, ⟨none, none⟩⟩], [[], [4]], ⟨[]⟩, [], [1], 0, [[[], [4]]], [], []⟩

/-- Reachable state with slot 0 empty (skipped) and slot 1 Owned. -/
def C6state : DispState :=
  ⟨[none, some ⟨some ⟨none, [4]⟩, ⟨none, none⟩⟩], [[], [4]], ⟨[]⟩, [], [], 0,
    [[[], [4]], [[], [4]]], [], []⟩

/-- `C6state` after the refresh-all signal: the only block (startup id 1)
is taken, but the dispatched update carries id 0. -/
def C6stateB : DispState :=
  ⟨[none, some ⟨none, ⟨none, none⟩⟩], [[], [4]], ⟨[]⟩, [], [0], 0,
    [[[], [4]], [[], [4]]], [], []⟩

/-- `C6`: the signal branches enumerate **after** `filter_map`, so when an
earlier slot is empty the dispatched update carries the filtered position,
not the startup id. In the reachable state `C6state` (slot 0 skipped, slot 1
Owned), a refresh-all signal dispatches the update for the block with
startup id 1 carrying id `0` (while taking slot 1's instance), and that
update's completion then panics on `blocks[0].as_mut().unwrap()` — ids are
de facto reassigned, contradicting the claim and the code's own comment
that the signal "updates every block in the bar". -/
theorem C6_signal_id_shift :
    Reachable 2 C6state ∧
    step C6state 9 (.signal .usr1) = .ok C6stateB ∧
    C6stateB.pending = [0] ∧
    C6stateB.blocks[1]? = some (some ⟨none, ⟨none, none⟩⟩) ∧
    step C6stateB 10 (.updated 0 ⟨none, [4]⟩ (.ok ())) = .panicked := by
  refine ⟨?_, by decide, by decide, by decide, by decide⟩
  exact ReachableVia.next C6mid3 C6state 5 (.updated 1 ⟨none, [4]⟩ (.ok ()))
    (ReachableVia.next C6mid2 C6mid3 5
      (.constructed 1 (.ok (some (⟨none, [4]⟩, ⟨none, none⟩))))
      (ReachableVia.next C6mid1 C6mid2 5 .timer
        (ReachableVia.next (initState 2 0) C6mid1 5 (.constructed 0 (.ok none))
          (ReachableVia.init 0) rfl (by decide) (by decide))
        rfl (by decide) (by decide))
      rfl (by decide) (by decide))
    rfl (by decide) (by decide)

/-- States of the `C1` counterexample trace: block 1 is built and becomes
Owned while block 0 is still under construction; a refresh-all signal then
dispatches block 1's update tagged id 0; block 0's construction then
completes and dispatches its first update, also tagged id 0. -/
def C1mid1 : DispState :=
  ⟨[none, some ⟨none, ⟨none, none⟩⟩], [[], [4]], ⟨[⟨0, 0⟩, ⟨1, 0⟩]⟩, [0], [1], 0,
    [[[], [4]]], [], []⟩

def C1mid2 : DispState :=
  ⟨[none, some ⟨some ⟨none, [4]⟩, ⟨none, none⟩⟩], [[], [4]], ⟨[⟨0, 0⟩]⟩, [0], [], 0,
    [[[], [4]], [[], [4]]], [], []⟩

def C1mid3 : DispState :=
  ⟨[none, some ⟨none, ⟨none, none⟩⟩], [[], [4]], ⟨[⟨0, 0⟩]⟩, [0], [0], 0,
    [[[], [4]], [[], [4]]], [], []⟩

/-- Reachable state carrying two in-flight updates both tagged with id 0. -/
def C1state : DispState :=
  ⟨[some ⟨none, ⟨none, none⟩⟩, some ⟨none, ⟨none, none⟩⟩], [[7], [4]], ⟨[⟨0, 0⟩]⟩, [], [0, 0], 0,
    [[[], [4]], [[], [4]], [[7], [4]]], [], []⟩

/-- `C1` counterexample: quantified over **every** reachable dispatcher
state, the at-most-one-in-flight-update-per-id claim is false — through the
signal branch's id shift (see `C6`), the reachable state `C1state` holds two
in-flight updates both tagged with block id 0. -/
theorem C1_counterexample :
    Reachable 2 C1state ∧ C1state.pending = [0, 0] ∧ ¬ C1state.pending.count 0 ≤ 1 := by
  refine ⟨?_, by decide, by decide⟩
  exact ReachableVia.next C1mid3 C1state 5
    (.constructed 0 (.ok (some (⟨none, [7]⟩, ⟨none, none⟩))))
    (ReachableVia.next C1mid2 C1mid3 5 (.signal .usr1)
      (ReachableVia.next C1mid1 C1mid2 5 (.updated 1 ⟨none, [4]⟩ (.ok ()))
        (ReachableVia.next (initState 2 0) C1mid1 5
          (.constructed 1 (.ok (some (⟨none, [4]⟩, ⟨none, none⟩))))
          (ReachableVia.init 0) rfl (by decide) (by decide))
        rfl (by decide) (by decide))
      rfl (by decide) (by decide))
    rfl (by decide) (by decide)

/-- Reachable state for the `C7` counterexample: the single configured block
reports no interval, its construction has completed (first update in
flight), and the task seeded for its id by `UpdateScheduler::new` is still
in the task list. -/
def C7state : DispState :=
  ⟨[some ⟨none, ⟨none, none⟩⟩], [[2]], ⟨[⟨0, 0⟩]⟩, [], [0], 0, [[[2]]], [], []⟩

/-- `C7` counterexample: `UpdateScheduler::new` seeds a task for **every**
id before any interval is known, so a block whose `interval()` is `None`
(here the constructed instance `⟨none, [2]⟩`) does have a scheduled task for
its id in a reachable state — the "never present at any reachable state"
claim fails at startup. -/
theorem C7_counterexample :
    Reachable 1 C7state ∧
    (⟨none, [2]⟩ : BlockInstance).interval = none ∧
    C7state.scheduler.taskCount 0 = 1 := by
  refine ⟨?_, rfl, by decide⟩
  exact ReachableVia.next (initState 1 0) C7state 3
    (.constructed 0 (.ok (some (⟨none, [2]⟩, ⟨none, none⟩))))
    (ReachableVia.init 0) rfl (by decide) (by decide)

lemma timerScan_retained_mem {now : Nat} :
    ∀ (l : List Task) (blocks : List (Option BlockState)) (t : Task),
      t ∈ (timerScan now l blocks).1 → t ∈ l := by
  intro l
  induction l with
  | nil =>
    intro blocks t ht
    exact absurd ht (by simp [timerScan])
  | cons task rest ih =>
    intro blocks t ht
    unfold timerScan at ht
    by_cases hd : task.update_time ≤ now
    · rw [if_pos hd] at ht
      cases hg : blocks[task.id]? with
      | none =>
        rw [hg] at ht
        cases ht
      | some o =>
        cases o with
        | none =>
          rw [hg] at ht
          exact List.mem_cons_of_mem _ (ih _ t ht)
        | some st =>
          rw [hg] at ht
          dsimp only at ht
          cases hi : st.inner with
          | some b =>
            rw [hi] at ht
            exact List.mem_cons_of_mem _ (ih _ t ht)
          | none =>
            rw [hi] at ht
            exact List.mem_cons_of_mem _ (ih _ t ht)
    · rw [if_neg hd] at ht
      rcases List.mem_cons.mp ht with rfl | hmem
      · exact List.mem_cons_self _ _
      · exact List.mem_cons_of_mem _ (ih _ t hmem)

/-- `C7` (amended): the seed task planted for every id by
`UpdateScheduler::new` — also for interval-less blocks — is the only
exception: across every loop iteration, any task in the successor state was
either already in the task list, or was pushed by a successful update
completion whose block reported `interval() = Some d`, with due time
`now + d`. So once its seed task is consumed, an interval-less block never
has a task again. -/
theorem C7_no_push_without_interval (s : DispState) (now : Nat) (e : Event)
    (s1 : DispState) (h : step s now e = .ok s1) :
    ∀ t ∈ s1.scheduler.schedule, t ∈ s.scheduler.schedule ∨
      ∃ id block d, e = .updated id block (.ok ()) ∧ block.interval = some d ∧
        t = ⟨id, now + d⟩ := by
  unfold step at h
  cases hb : branchStep s now e with
  | ok s2 =>
    rw [hb] at h
    have hs1 : finishIter now s2 = s1 := by
      cases h
      rfl
    subst hs1
    rw [(finishIter_fields now s2).2.2.1]
    intro t ht
    cases e with
    | constructed id res =>
      have hsch : s2.scheduler = s.scheduler := by
        simp only [branchStep, constructedStep] at hb
        split at hb
        all_goals try split at hb
        all_goals first | (cases hb; rfl) | cases hb
      rw [hsch] at ht
      exact Or.inl ht
    | request id =>
      have hsch : s2.scheduler = s.scheduler := by
        simp only [branchStep, requestStep] at hb
        split at hb
        all_goals try split at hb
        all_goals first | (cases hb; rfl) | cases hb
      rw [hsch] at ht
      exact Or.inl ht
    | click ev res =>
      have hsch : s2.scheduler = s.scheduler := by
        simp only [branchStep, clickStep, clickInvoke] at hb
        split at hb
        all_goals try split at hb
        all_goals try split at hb
        all_goals try split at hb
        all_goals try split at hb
        all_goals first | (cases hb; rfl) | cases hb
      rw [hsch] at ht
      exact Or.inl ht
    | signal sig =>
      have hsch : s2.scheduler = s.scheduler := by
        simp only [branchStep, signalStep] at hb
        split at hb
        all_goals first | (cases hb; rfl) | cases hb
      rw [hsch] at ht
      exact Or.inl ht
    | timer =>
      simp only [branchStep, timerStep] at hb
      split at hb
      · cases hb
      · cases hb
        exact Or.inl (timerScan_retained_mem _ _ t ht)
    | updated id block result =>
      rcases result with e1 | u
      · simp only [branchStep, updatedStep] at hb
        split at hb
        all_goals cases hb
      · cases u
        simp only [branchStep, updatedStep] at hb
        split at hb
        · split at hb
          · cases hb
            cases hint : block.interval with
            | some dur =>
              rw [hint] at ht
              unfold UpdateScheduler.push at ht
              rcases List.mem_append.mp ht with hmem | hone
              · exact Or.inl (List.mem_of_mem_filter hmem)
              · rcases List.mem_singleton.mp hone with rfl
                exact Or.inr ⟨id, block, dur, rfl, hint, rfl⟩
            | none =>
              rw [hint] at ht
              exact Or.inl (List.mem_of_mem_filter ht)
          · cases hb
        · cases hb
  | err e1 =>
    rw [hb] at h
    cases h
  | panicked =>
    rw [hb] at h
    cases h
  | restart =>
    rw [hb] at h
    cases h

/-- Witness for `C7_no_push_without_interval` on a concrete iteration that
leaves the task list unchanged. -/
theorem C7_no_push_without_interval_witness :
    (⟨0, 9⟩ : Task) ∈
      (⟨[some ⟨none, ⟨none, none⟩⟩], [[]], ⟨[⟨0, 9⟩]⟩, [], [0], 6, [], [], []⟩ :
        DispState).scheduler.schedule := by
  rcases (C7_no_push_without_interval
      (⟨[some ⟨some ⟨none, []⟩, ⟨none, none⟩⟩], [[]], ⟨[⟨0, 9⟩]⟩, [], [], 5, [], [], []⟩ :
        DispState)
      3 (.request 0)
      (⟨[some ⟨none, ⟨none, none⟩⟩], [[]], ⟨[⟨0, 9⟩]⟩, [], [0], 6, [], [], []⟩ : DispState)
      (by decide))
      ⟨0, 9⟩ (by decide) with hmem | ⟨id, b, d, heq, _, _⟩
  · exact hmem
  · cases heq

/-- The coalescing invariant over the dispatcher-owned data: every id has
at most one in-flight update; an Owned or empty (or out-of-range) slot has
none in flight; an id still under construction has an empty slot, nothing in
flight, and at most one pending construction. -/
def SlotsInv (blocks : List (Option BlockState)) (pending pendingNew : List Nat) : Prop :=
  ∀ id : Nat,
    pending.count id ≤ 1 ∧
    (∀ st b, blocks[id]? = some (some st) → st.inner = some b → pending.count id = 0) ∧
    (blocks[id]? = some none → pending.count id = 0) ∧
    (blocks[id]? = none → pending.count id = 0) ∧
    (id ∈ pendingNew → blocks[id]? = some none ∧ pending.count id = 0) ∧
    pendingNew.count id ≤ 1

/-- `SlotsInv` for a whole dispatcher state. -/
def CoalesceInv (s : DispState) : Prop := SlotsInv s.blocks s.pending s.pendingNew

lemma count_append_singleton (l : List Nat) (a j : Nat) :
    (l ++ [a]).count j = l.count j + if a = j then 1 else 0 := by
  rw [List.count_append, List.count_singleton']

/-- Taking an owned instance out of slot `i` and dispatching an update for
`i` preserves the invariant. -/
lemma slotsInv_take {blocks : List (Option BlockState)} {pending pendingNew : List Nat}
    {i : Nat} {st : BlockState} {b : BlockInstance}
    (h : SlotsInv blocks pending pendingNew)
    (hg : blocks[i]? = some (some st)) (hi : st.inner = some b) :
    SlotsInv (blocks.set i (some { st with inner := none })) (pending ++ [i]) pendingNew := by
  intro j
  obtain ⟨a1, a2, a3, a4, a5, a6⟩ := h j
  have hc0 : pending.count i = 0 := (h i).2.1 st b hg hi
  by_cases hj : j = i
  · subst hj
    refine ⟨?_, ?_, ?_, ?_, ?_, a6⟩
    · rw [count_append_singleton]
      simp [hc0]
    · intro st2 b2 hget hinner
      rw [List.getElem?_set_self', hg] at hget
      cases hget
      cases hinner
    · intro hget
      rw [List.getElem?_set_self', hg] at hget
      cases hget
    · intro hget
      rw [List.getElem?_set_self', hg] at hget
      cases hget
    · intro hj2
      rcases a5 hj2 with ⟨hsl, _⟩
      rw [hg] at hsl
      cases hsl
  · have hne : i ≠ j := fun hh => hj hh.symm
    have hcc : (pending ++ [i]).count j = pending.count j := by
      rw [count_append_singleton]
      simp [hne]
    have hgg : (blocks.set i (some { st with inner := none }))[j]? = blocks[j]? :=
      List.getElem?_set_ne hne
    rw [hcc, hgg]
    exact ⟨a1, a2, a3, a4, a5, a6⟩

/-- Taking an owned instance out of slot `i` and dropping it (a click whose
handler returns `Ok(false)`) also preserves the invariant. -/
lemma slotsInv_take_drop {blocks : List (Option BlockState)} {pending pendingNew : List Nat}
    {i : Nat} {st : BlockState} {b : BlockInstance}
    (h : SlotsInv blocks pending pendingNew)
    (hg : blocks[i]? = some (some st)) (hi : st.inner = some b) :
    SlotsInv (blocks.set i (some { st with inner := none })) pending pendingNew := by
  intro j
  obtain ⟨a1, a2, a3, a4, a5, a6⟩ := h j
  by_cases hj : j = i
  · subst hj
    have hc0 : pending.count j = 0 := (h j).2.1 st b hg hi
    refine ⟨a1, ?_, ?_, ?_, ?_, a6⟩
    · intro st2 b2 hget hinner
      rw [List.getElem?_set_self', hg] at hget
      cases hget
      cases hinner
    · intro hget
      rw [List.getElem?_set_self', hg] at hget
      cases hget
    · intro hget
      rw [List.getElem?_set_self', hg] at hget
      cases hget
    · intro hj2
      rcases a5 hj2 with ⟨hsl, _⟩
      rw [hg] at hsl
      cases hsl
  · have hne : i ≠ j := fun hh => hj hh.symm
    rw [List.getElem?_set_ne hne]
    exact ⟨a1, a2, a3, a4, a5, a6⟩

/-- Witness for `C9`: one pending task at `10`, iteration at `now = 7` — the
recomputed wait is `3`. -/
theorem C9_ttnu_recompute_witness :
    (⟨[some ⟨none, ⟨none, none⟩⟩], [[]], ⟨[⟨0, 10⟩]⟩, [], [0], 3, [], [], []⟩ : DispState).ttnu
      = 3 :=
  (C9_ttnu_recompute
    (⟨[some ⟨some ⟨none, []⟩, ⟨none, none⟩⟩], [[]], ⟨[⟨0, 10⟩]⟩, [], [], 99, [], [], []⟩ :
      DispState)
    7 (.request 0)
    (⟨[some ⟨none, ⟨none, none⟩⟩], [[]], ⟨[⟨0, 10⟩]⟩, [], [0], 3, [], [], []⟩ : DispState)
    (by decide)).1 3 (by decide)

lemma slotsInv_timerScan {now : Nat} :
    ∀ (l : List Task) (blocks : List (Option BlockState)) (pending pendingNew : List Nat),
      SlotsInv blocks pending pendingNew →
      SlotsInv (timerScan now l blocks).2.1 (pending ++ (timerScan now l blocks).2.2.1)
        pendingNew := by
  intro l
  induction l with
  | nil =>
    intro blocks pending pn h
    simpa [timerScan] using h
  | cons task rest ih =>
    intro blocks pending pn h
    unfold timerScan
    by_cases hd : task.update_time ≤ now
    · rw [if_pos hd]
      cases hg : blocks[task.id]? with
      | none => simpa using h
      | some o =>
        cases o with
        | none =>
          dsimp only
          exact ih blocks pending pn h
        | some st =>
          dsimp only
          cases hi : st.inner with
          | none =>
            dsimp only
            exact ih blocks pending pn h
          | some b =>
            dsimp only
            rw [List.append_cons]
            exact ih _ (pending ++ [task.id]) pn (slotsInv_take h hg hi)
    · rw [if_neg hd]
      dsimp only
      exact ih blocks pending pn h

lemma coalesceInv_timer {s s2 : DispState} {now : Nat}
    (hinv : CoalesceInv s) (hb : timerStep s now = .ok s2) : CoalesceInv s2 := by
  unfold timerStep at hb
  dsimp only at hb
  split at hb
  · cases hb
  · cases hb
    exact slotsInv_timerScan _ _ _ _ hinv

lemma coalesceInv_constructed {s s2 : DispState} {cid : Nat}
    {res : Except String (Option (BlockInstance × BlockHandlers))}
    (hinv : CoalesceInv s) (hen : cid ∈ s.pendingNew)
    (hb : constructedStep s cid res = .ok s2) : CoalesceInv s2 := by
  obtain ⟨hslot, hcnt⟩ := (hinv cid).2.2.2.2.1 hen
  unfold constructedStep at hb
  split at hb
  · rcases res with e1 | o
    · cases hb
    · rcases o with _ | ⟨block, handlers⟩
      · cases hb
        intro j
        obtain ⟨a1, a2, a3, a4, a5, a6⟩ := hinv j
        refine ⟨a1, a2, a3, a4, ?_, ?_⟩
        · intro hj
          exact a5 (List.mem_of_mem_erase hj)
        · exact le_trans ((List.erase_sublist cid s.pendingNew).count_le j) a6
      · cases hb
        intro j
        obtain ⟨a1, a2, a3, a4, a5, a6⟩ := hinv j
        by_cases hj : j = cid
        · subst hj
          refine ⟨?_, ?_, ?_, ?_, ?_, ?_⟩
          · rw [count_append_singleton]
            simp [hcnt]
          · intro st2 b2 hget hinner
            rw [List.getElem?_set_self', hslot] at hget
            cases hget
            cases hinner
          · intro hget
            rw [List.getElem?_set_self', hslot] at hget
            cases hget
          · intro hget
            rw [List.getElem?_set_self', hslot] at hget
            cases hget
          · intro hj2
            have hz : (s.pendingNew.erase j).count j = 0 := by
              rw [List.count_erase_self]
              omega
            exact absurd hj2 (List.count_eq_zero.mp hz)
          · exact le_trans ((List.erase_sublist j s.pendingNew).count_le j) a6
        · have hne : cid ≠ j := fun hh => hj hh.symm
          have hcc : (s.pending ++ [cid]).count j = s.pending.count j := by
            rw [count_append_singleton]
            simp [hne]
          have hgg : (s.blocks.set cid (some { inner := none, handlers := handlers }))[j]?
              = s.blocks[j]? := List.getElem?_set_ne hne
          rw [hcc, hgg]
          refine ⟨a1, a2, a3, a4, ?_, ?_⟩
          · intro hj2
            exact a5 (List.mem_of_mem_erase hj2)
          · exact le_trans ((List.erase_sublist cid s.pendingNew).count_le j) a6
  · cases hb

lemma coalesceInv_updated {s s2 : DispState} {uid : Nat} {block : BlockInstance}
    {result : Except String Unit} {now : Nat}
    (hinv : CoalesceInv s) (hen : uid ∈ s.pending)
    (hb : updatedStep s uid block result now = .ok s2) : CoalesceInv s2 := by
  unfold updatedStep at hb
  split at hb
  · rcases result with e1 | u
    · cases hb
    · cases u
      cases hg : s.blocks[uid]? with
      | none =>
        rw [hg] at hb
        cases hb
      | some o =>
        cases o with
        | none =>
          rw [hg] at hb
          cases hb
        | some st =>
          rw [hg] at hb
          dsimp only at hb
          cases hb
          intro j
          obtain ⟨a1, a2, a3, a4, a5, a6⟩ := hinv j
          have hle : s.pending.count uid ≤ 1 := (hinv uid).1
          by_cases hj : j = uid
          · subst hj
            have hpos : 1 ≤ s.pending.count j := List.one_le_count_iff.mpr hen
            have herase : (s.pending.erase j).count j = 0 := by
              rw [List.count_erase_self]
              omega
            refine ⟨?_, ?_, ?_, ?_, ?_, a6⟩
            · rw [herase]
              omega
            · intro st2 b2 _ _
              exact herase
            · intro hget
              rw [List.getElem?_set_self', hg] at hget
              cases hget
            · intro hget
              rw [List.getElem?_set_self', hg] at hget
              cases hget
            · intro hj2
              rcases a5 hj2 with ⟨hsl, _⟩
              rw [hg] at hsl
              cases hsl
          · have hne : uid ≠ j := fun hh => hj hh.symm
            have hcc : (s.pending.erase uid).count j = s.pending.count j :=
              List.count_erase_of_ne hj s.pending
            have hgg : (s.blocks.set uid (some { st with inner := some block }))[j]?
                = s.blocks[j]? := List.getElem?_set_ne hne
            rw [hcc, hgg]
            exact ⟨a1, a2, a3, a4, a5, a6⟩
  · cases hb

lemma coalesceInv_request {s s2 : DispState} {rid : Nat}
    (hinv : CoalesceInv s) (hb : requestStep s rid = .ok s2) : CoalesceInv s2 := by
  unfold requestStep at hb
  cases hg : s.blocks[rid]? with
  | none =>
    rw [hg] at hb
    cases hb
  | some o =>
    cases o with
    | none =>
      rw [hg] at hb
      cases hb
      exact hinv
    | some st =>
      rw [hg] at hb
      dsimp only at hb
      cases hi : st.inner with
      | none =>
        rw [hi] at hb
        cases hb
        exact hinv
      | some b =>
        rw [hi] at hb
        cases hb
        exact slotsInv_take hinv hg hi

lemma coalesceInv_clickInvoke {s s2 : DispState} {ev : I3BarEvent}
    {clickRes : Except String Bool} {st : BlockState}
    (hinv : CoalesceInv s) (hg : s.blocks[ev.id]? = some (some st))
    (hb : clickInvoke s ev clickRes st = .ok s2) : CoalesceInv s2 := by
  unfold clickInvoke at hb
  cases hi : st.inner with
  | none =>
    rw [hi] at hb
    cases hb
    exact hinv
  | some b =>
    rw [hi] at hb
    dsimp only at hb
    rcases clickRes with e1 | bv
    · cases hb
    · cases bv
      · cases hb
        exact slotsInv_take_drop hinv hg hi
      · cases hb
        exact slotsInv_take hinv hg hi

lemma coalesceInv_click {s s2 : DispState} {ev : I3BarEvent} {clickRes : Except String Bool}
    (hinv : CoalesceInv s) (hb : clickStep s ev clickRes = .ok s2) : CoalesceInv s2 := by
  unfold clickStep at hb
  cases hg : s.blocks[ev.id]? with
  | none =>
    rw [hg] at hb
    cases hb
  | some o =>
    cases o with
    | none =>
      rw [hg] at hb
      cases hb
      exact hinv
    | some st =>
      rw [hg] at hb
      dsimp only at hb
      cases hoc : st.handlers.on_click with
      | some cmd =>
        rw [hoc] at hb
        dsimp only at hb
        split at hb
        · cases hb
          exact hinv
        · exact coalesceInv_clickInvoke hinv hg hb
      | none =>
        rw [hoc] at hb
        exact coalesceInv_clickInvoke hinv hg hb

lemma coalesceInv_init (n now0 : Nat) : CoalesceInv (initState n now0) := by
  intro j
  refine ⟨by simp [initState], ?_, ?_, ?_, ?_, ?_⟩
  · intro st b hget _
    rw [show (initState n now0).blocks = List.replicate n none from rfl,
      List.getElem?_replicate] at hget
    split at hget
    · simp at hget
    · cases hget
  · intro _
    simp [initState]
  · intro _
    simp [initState]
  · intro hmem
    have hlt : j < n := List.mem_range.mp hmem
    constructor
    · rw [show (initState n now0).blocks = List.replicate n none from rfl,
        List.getElem?_replicate, if_pos hlt]
    · simp [initState]
  · exact List.nodup_iff_count_le_one.mp (List.nodup_range n) j

lemma coalesceInv_finishIter {now : Nat} {s : DispState} (h : CoalesceInv s) :
    CoalesceInv (finishIter now s) := by
  obtain ⟨hbk, _, _, hpn, hpd, _, _, _⟩ := finishIter_fields now s
  unfold CoalesceInv
  rw [hbk, hpn, hpd]
  exact h

lemma coalesceInv_step {s s1 : DispState} {now : Nat} {e : Event}
    (hinv : CoalesceInv s) (hen : enabledB s e = true) (hns : nonSignal e = true)
    (h : step s now e = .ok s1) : CoalesceInv s1 := by
  unfold step at h
  cases hb : branchStep s now e with
  | ok s2 =>
    rw [hb] at h
    have hs1 : finishIter now s2 = s1 := by
      cases h
      rfl
    subst hs1
    refine coalesceInv_finishIter ?_
    cases e with
    | constructed id res =>
      have hmem : id ∈ s.pendingNew := by
        simpa [enabledB] using hen
      exact coalesceInv_constructed hinv hmem hb
    | updated id block result =>
      have hmem : id ∈ s.pending := by
        simpa [enabledB] using hen
      exact coalesceInv_updated hinv hmem hb
    | request id => exact coalesceInv_request hinv hb
    | click ev res => exact coalesceInv_click hinv hb
    | timer => exact coalesceInv_timer hinv hb
    | signal sig => simp [nonSignal] at hns
  | err e1 =>
    rw [hb] at h
    cases h
  | panicked =>
    rw [hb] at h
    cases h
  | restart =>
    rw [hb] at h
    cases h

lemma coalesceInv_reachableNS {n : Nat} {s : DispState} (h : ReachableNS n s) :
    CoalesceInv s := by
  induction h with
  | init now0 => exact coalesceInv_init n now0
  | next s s1 now e hr hallow hen hstep ih => exact coalesceInv_step ih hen hallow hstep

/-- `C1` (amended): restricted to the non-signal event sources (construction,
update completion, async request, click, timer), every reachable dispatcher
state has at most one in-flight update per block id, and an async request
arriving for a block whose instance has been taken (InFlight) is dropped:
the iteration leaves the state unchanged apart from the trailing wait
recomputation, starting no second update. (The signal branches break the
unrestricted claim through their id shift — see `C1_counterexample` and
`C6`.) -/
theorem C1_coalescing (n : Nat) (s : DispState) (h : ReachableNS n s) (id now : Nat) :
    s.pending.count id ≤ 1 ∧
    (∀ st, s.blocks[id]? = some (some st) → st.inner = none →
      step s now (.request id) = .ok (finishIter now s)) := by
  refine ⟨(coalesceInv_reachableNS h id).1, ?_⟩
  intro st hget hinner
  simp [step, branchStep, requestStep, hget, hinner]

/-- Concrete signal-free reachable state for the `C1` witness: one block,
its first update in flight. -/
def C1w : DispState :=
  ⟨[some ⟨none, ⟨none, none⟩⟩], [[4]], ⟨[⟨0, 0⟩]⟩, [], [0], 0, [[[4]]], [], []⟩

/-- Witness for `C1_coalescing` at `C1w`: one in-flight update, and a
request arriving now is dropped. -/
theorem C1_coalescing_witness :
    C1w.pending.count 0 ≤ 1 ∧ step C1w 9 (.request 0) = .ok (finishIter 9 C1w) := by
  have hreach : ReachableNS 1 C1w :=
    ReachableVia.next (initState 1 0) C1w 5
      (.constructed 0 (.ok (some (⟨none, [4]⟩, ⟨none, none⟩))))
      (ReachableVia.init 0) rfl (by decide) (by decide)
  exact ⟨(C1_coalescing 1 C1w hreach 0 9).1,
    (C1_coalescing 1 C1w hreach 0 9).2 ⟨none, ⟨none, none⟩⟩ (by decide) rfl⟩

end I3
